import Mathlib

/-!
Verification of the crawl-scope / link-extraction core of the
`spacetime-crawler4py` repository (`scraper.py`, `results.py`).

The Python functions are shallowly embedded as Lean functions.  External
collaborators are modelled at their interface, exactly as the spec scopes
them out: HTML parsing (`BeautifulSoup`) is abstracted into an `HtmlDoc`
carrying the visible text and the ordered href list, the `Simhash`
fingerprint and `urljoin` are function parameters, and `urllib.parse` is
re-implemented from CPython's algorithm for ASCII inputs.
Exceptions (`ValueError` from `urlparse`) are modelled with `Except`.
-/

set_option maxRecDepth 20000

namespace Crawler

instance {ε α : Type} [DecidableEq ε] [DecidableEq α] : DecidableEq (Except ε α) :=
  fun x y =>
    match x, y with
    | .error a, .error b =>
      if h : a = b then .isTrue (by simp [h]) else .isFalse (by simp [h])
    | .error _, .ok _ => .isFalse (by simp)
    | .ok _, .error _ => .isFalse (by simp)
    | .ok a, .ok b =>
      if h : a = b then .isTrue (by simp [h]) else .isFalse (by simp [h])

/-- Result of `urllib.parse.urlparse`, restricted to the five components the
repository ever reads.  The `params` component is omitted: it is never read by
the code under study, and for paths containing no `;` the splitting and
re-joining of `params` is the identity on the other components and on
`geturl`'s output. -/
structure ParseResult where
  scheme : String
  netloc : String
  path : String
  query : String
  fragment : String
deriving DecidableEq, Repr

/-- Python `pat in s`: `pat` occurs as a contiguous substring of `s`. -/
def strContains (s pat : String) : Bool :=
  s.toList.tails.any (fun t => pat.toList.isPrefixOf t)

/-- Python `s.lower()` (the inputs considered are ASCII, on which Python's
Unicode lowercasing agrees with per-character ASCII lowercasing). -/
def strToLower (s : String) : String :=
  String.mk (s.toList.map Char.toLower)

/-- Python `s.endswith(suffix)`. -/
def strEndsWith (s suffix : String) : Bool :=
  suffix.toList.isSuffixOf s.toList

/-- Python `s.startswith(pre)`. -/
def strStartsWith (s pre : String) : Bool :=
  pre.toList.isPrefixOf s.toList

/-- Characters allowed in a URL scheme (CPython `urllib.parse.scheme_chars`):
ASCII letters, digits, `+`, `-`, `.`. -/
def schemeChar (c : Char) : Bool :=
  c.isAlpha || c.isDigit || c == '+' || c == '-' || c == '.'

/-- Scheme splitting as in CPython `urlsplit`: a scheme is present when the
first `:` of the input sits after a nonempty ASCII-letter-initial run of
scheme characters; the scheme is lowercased and the `:` dropped. -/
def splitScheme (cs : List Char) : List Char × List Char :=
  match cs.findIdx? (fun c => c == ':') with
  | some i =>
    if 0 < i && (cs.headD ' ').isAlpha && (cs.take i).all schemeChar then
      ((cs.take i).map Char.toLower, cs.drop (i + 1))
    else ([], cs)
  | none => ([], cs)

/-- CPython `_splitnetloc` (with the leading `//` already dropped): the netloc
runs up to the first `/`, `?` or `#`. -/
def splitNetloc (cs : List Char) : List Char × List Char :=
  let nl := cs.takeWhile (fun c => !(c == '/' || c == '?' || c == '#'))
  (nl, cs.drop nl.length)

/-- Python `s.split(c, 1)` when `c` occurs, `(s, "")` otherwise. -/
def splitFirst (c : Char) (cs : List Char) : List Char × List Char :=
  match cs.findIdx? (fun x => x == c) with
  | some i => (cs.take i, cs.drop (i + 1))
  | none => (cs, [])

/-- Model of `urllib.parse.urlparse` (CPython `urlsplit`; `params` omitted as
explained at `ParseResult`) for ASCII inputs free of control characters — on
such inputs the WHATWG control-character stripping of recent CPython is the
identity.  Fails with `ValueError("Invalid IPv6 URL")` exactly when the
authority contains `[` without `]` or `]` without `[`. -/
def urlparse (s : String) : Except String ParseResult :=
  let cs := s.toList
  let sr := splitScheme cs
  let na := if sr.2.take 2 == ['/', '/'] then splitNetloc (sr.2.drop 2) else ([], sr.2)
  if (na.1.contains '[' && !(na.1.contains ']'))
      || (na.1.contains ']' && !(na.1.contains '[')) then
    .error "Invalid IPv6 URL"
  else
    let uf := splitFirst '#' na.2
    let pq := splitFirst '?' uf.1
    .ok ⟨String.mk sr.1, String.mk na.1, String.mk pq.1, String.mk pq.2, String.mk uf.2⟩

/-- Model of `ParseResult.geturl` (CPython `urlunsplit`; the `params`
component, empty for all inputs considered, is omitted). -/
def urlunsplit (p : ParseResult) : String :=
  let url := p.path
  let url :=
    if p.netloc != "" || url.toList.take 2 == ['/', '/'] then
      "//" ++ p.netloc ++ (if url != "" && !(strStartsWith url "/") then "/" ++ url else url)
    else url
  let url := if p.scheme != "" then p.scheme ++ ":" ++ url else url
  let url := if p.query != "" then url ++ "?" ++ p.query else url
  if p.fragment != "" then url ++ "#" ++ p.fragment else url

/-- The alternatives of the extension-blocking regex of `is_valid`
(`jpe?g` expanded to `jpeg`,`jpg`; `tiff?` to `tiff`,`tif`). -/
def blocked_extensions : List String :=
  ["css", "js", "bmp", "gif", "jpeg", "jpg", "ico",
   "png", "tiff", "tif", "mid", "mp2", "mp3", "mp4",
   "wav", "avi", "mov", "mpeg", "ram", "m4v", "mkv", "ogg", "ogv", "pdf",
   "ps", "eps", "tex", "ppt", "pptx", "doc", "docx", "xls", "xlsx", "names",
   "data", "dat", "exe", "bz2", "tar", "msi", "bin", "7z", "psd", "dmg", "iso",
   "epub", "dll", "cnf", "tgz", "sha1",
   "thmx", "mso", "arff", "rtf", "jar", "csv",
   "rm", "smil", "wmv", "swf", "wma", "zip", "rar", "gz"]

/-- The check `re.match(r".*\.(css|...|gz)$", path)`: on a newline-free `path` this
regex matches exactly when `path` ends in a dot followed by one of the listed
extensions. -/
def extBlocked (path : String) : Bool :=
  blocked_extensions.any (fun e => strEndsWith path ("." ++ e))

/-- The `allowed_domains` set literal of `is_valid`, in source order. -/
def allowed_domains : List String :=
  [".ics.uci.edu", ".cs.uci.edu", ".informatics.uci.edu", ".stat.uci.edu",
   "today.uci.edu"]

/-- The test `any(parsed.netloc.endswith(domain) for domain in allowed_domains)`. -/
def domainOk (netloc : String) : Bool :=
  allowed_domains.any (fun d => strEndsWith netloc d)

/-- The alternatives of the trap-detection regex of `is_valid`
(`php\?id=` is an escaped literal `?`). -/
def trap_query_keys : List String :=
  ["calendar", "wp-content", "replytocom", "php?id=", "sort=", "session=",
   "ref=", "page=", "start=", "dir=", "date=", "filter=", "id=", "sid=",
   "query=", "view=", "tag=", "highlight=", "theme="]

/-- The `re.search` of the trap regex: some alternative occurs as a substring of
the (already lowercased) query. -/
def trapHit (query : String) : Bool :=
  trap_query_keys.any (fun k => strContains query k)

/-- The check chain of `is_valid` on an already-parsed URL, in source order:
fragment, scheme, extension, domain allowlist, `today.uci.edu` path
restriction, trap query, path-depth / query-length ceilings. -/
def is_valid_core (p : ParseResult) : Bool :=
  if p.fragment != "" then false
  else if !(p.scheme == "http" || p.scheme == "https") then false
  else if extBlocked (strToLower p.path) then false
  else if !(domainOk p.netloc) then false
  else if strEndsWith p.netloc "today.uci.edu"
      && !(strStartsWith p.path "/department/information_computer_sciences") then false
  else if trapHit (strToLower p.query) then false
  else if p.path.toList.count '/' > 4 ∨ p.query.length > 50 then false
  else true

/-- Function `is_valid(url)` from `scraper.py`.  The `except TypeError` clause re-raises
after printing and can in any case not fire for a string argument, so the only
effect beyond `is_valid_core` is that a `ValueError` raised by `urlparse`
propagates to the caller. -/
def is_valid (url : String) : Except String Bool := do
  let parsed ← urlparse url
  pure (is_valid_core parsed)

/-- Fuel-indexed bit-count; `popCountAux n m` is the number of 1-bits of `m`
whenever `m ≤ n` (halving terminates within `n` steps). -/
def popCountAux : Nat → Nat → Nat
  | 0, _ => 0
  | fuel + 1, n => if n = 0 then 0 else n % 2 + popCountAux fuel (n / 2)

/-- Python `bin(x).count('1')`: the number of 1-bits of `x`. -/
def popCount (n : Nat) : Nat :=
  popCountAux n n

/-- Python `bin(a ^ b).count('1')`: the Hamming distance used by the simhash
deduplication. -/
def hamming (a b : Nat) : Nat :=
  popCount (a ^^^ b)

/-- Abstraction of a `BeautifulSoup`-parsed, script/style-stripped document:
`text` is `soup.get_text(separator=' ', strip=True)` and `hrefs` lists the
`href` attributes of the `<a href=...>` tags in document order. -/
structure HtmlDoc where
  text : String
  hrefs : List String
deriving DecidableEq, Repr

/-- The `resp.raw_response` object; `content = none` models falsy (absent or empty)
body bytes. -/
structure RawResponse where
  content : Option HtmlDoc
deriving DecidableEq, Repr

/-- The fetch result handed to `extract_next_links`. -/
structure Response where
  status : Nat
  raw_response : Option RawResponse
deriving DecidableEq, Repr

/-- Function `extract_next_links(url, resp)` from `scraper.py`, with the
function-attribute set `extract_next_links.visited_simhashes` threaded
explicitly as `store`, the external `Simhash(...).value` as `simhashF`, and
the external `urljoin` as `urljoinF`.  Returns the produced link list and the
store after the call. -/
def extract_next_links (simhashF : String → Nat) (urljoinF : String → String → String)
    (url : String) (resp : Response) (store : Finset Nat) :
    List String × Finset Nat :=
  match resp.raw_response with
  | none => ([], store)
  | some rr =>
    match rr.content with
    | none => ([], store)
    | some doc =>
      let c := simhashF doc.text
      if ∃ e ∈ store, hamming c e ≤ 3 then ([], store)
      else (doc.hrefs.map (urljoinF url), insert c store)

/-- The list comprehension `[link for link in links if is_valid(link)]`:
keeps the links `is_valid` accepts, in order, propagating the first exception
`is_valid` raises. -/
def filterValid : List String → Except String (List String)
  | [] => .ok []
  | l :: ls =>
    match is_valid l with
    | .error e => .error e
    | .ok b =>
      match filterValid ls with
      | .error e => .error e
      | .ok rest => .ok (if b then l :: rest else rest)

/-- Function `scraper(url, resp)` from `scraper.py`, with the same explicit threading
as `extract_next_links`. -/
def scraper (simhashF : String → Nat) (urljoinF : String → String → String)
    (url : String) (resp : Response) (store : Finset Nat) :
    Except String (List String × Finset Nat) :=
  match filterValid (extract_next_links simhashF urljoinF url resp store).1 with
  | .error e => .error e
  | .ok good => .ok (good, (extract_next_links simhashF urljoinF url resp store).2)

/-- A whole sequence of `extract_next_links` calls, returning the final
fingerprint store. -/
def runCrawl (simhashF : String → Nat) (urljoinF : String → String → String) :
    List (String × Response) → Finset Nat → Finset Nat
  | [], store => store
  | pr :: rest, store =>
    runCrawl simhashF urljoinF rest (extract_next_links simhashF urljoinF pr.1 pr.2 store).2

/-- The character class `[^\s,]` of the log-scanning regex in `results.py`
(ASCII whitespace; the log lines contain no `\f`/`\v`). -/
def urlToken (cs : List Char) : List Char :=
  cs.takeWhile (fun c => !c.isWhitespace && !(c == ','))

/-- One attempt of `re.search(r'Downloaded (https?://[^\s,]+)', line)` at a
fixed start position: the literal `Downloaded `, then `https://` (the greedy
`s?`) or `http://`, then a nonempty maximal run of non-space non-comma
characters, which together with the scheme forms the captured group. -/
def matchAt (cs : List Char) : Option String :=
  if "Downloaded ".toList.isPrefixOf cs then
    let r := cs.drop 11
    if "https://".toList.isPrefixOf r then
      let body := urlToken (r.drop 8)
      if body.isEmpty then none else some (String.mk ("https://".toList ++ body))
    else if "http://".toList.isPrefixOf r then
      let body := urlToken (r.drop 7)
      if body.isEmpty then none else some (String.mk ("http://".toList ++ body))
    else none
  else none

/-- The `re.search` over the whole line: the match at the leftmost start position
that succeeds, if any. -/
def searchLine : List Char → Option String
  | [] => none
  | c :: rest =>
    match matchAt (c :: rest) with
    | some u => some u
    | none => searchLine rest

/-- The captured `Downloaded` URL of one log line, if the line has one. -/
def matchLine (l : String) : Option String :=
  searchLine l.toList

/-- The expression `parsed_url._replace(fragment="").geturl()`. -/
def defragment (p : ParseResult) : String :=
  urlunsplit { p with fragment := "" }

/-- Parse and defragment every captured URL, in order, propagating the first
`ValueError` that `urlparse` raises. -/
def defragAll : List String → Except String (List String)
  | [] => .ok []
  | u :: us =>
    match urlparse u with
    | .error e => .error e
    | .ok p =>
      match defragAll us with
      | .error e => .error e
      | .ok rest => .ok (defragment p :: rest)

/-- Function `count_unique_pages` from `results.py`, with the log file abstracted to
its list of lines: the size of the set of defragmented URLs captured from
lines matching `Downloaded (https?://[^\s,]+)`. -/
def count_unique_pages (lines : List String) : Except String Nat :=
  match defragAll (lines.filterMap matchLine) with
  | .error e => .error e
  | .ok ds => .ok ds.toFinset.card

/-- One call to `is_valid` observed against the crawler process's only piece
of mutable state (the simhash store): the body of `is_valid` neither reads
nor writes it, so the call returns its value and leaves the state unchanged. -/
def is_valid_call (store : Finset Nat) (url : String) :
    Except String Bool × Finset Nat :=
  (is_valid url, store)

/-- When the URL parses, `is_valid` returns the boolean of the check chain. -/
theorem is_valid_of_parse_ok {url : String} {p : ParseResult}
    (h : urlparse url = .ok p) : is_valid url = .ok (is_valid_core p) := by
  unfold is_valid
  rw [h]
  rfl

/-- When the URL does not parse, `is_valid` propagates the error. -/
theorem is_valid_of_parse_err {url e : String}
    (h : urlparse url = .error e) : is_valid url = .error e := by
  unfold is_valid
  rw [h]
  rfl

/-- A URL whose host matches no allowlist suffix fails the check chain. -/
theorem is_valid_core_false_of_domain {p : ParseResult}
    (h : domainOk p.netloc = false) : is_valid_core p = false := by
  simp [is_valid_core, h]

/-- C1: the claim as stated is false: `nottoday.uci.edu` is neither equal to
nor a dot-separated subdomain of any allowed domain, yet `is_valid` accepts a
URL with that host, because the `today.uci.edu` allowlist entry carries no
leading dot and `endswith` is a raw text-suffix test. -/
theorem c1_counterexample :
    ("nottoday.uci.edu" ≠ "today.uci.edu")
    ∧ strEndsWith "nottoday.uci.edu" ".today.uci.edu" = false
    ∧ is_valid "https://nottoday.uci.edu/department/information_computer_sciences"
        = .ok true := by
  exact ⟨by decide, by decide, by decide⟩

/-- C1 (amended): domain matching is a raw string-suffix test against
`.ics.uci.edu`, `.cs.uci.edu`, `.informatics.uci.edu`, `.stat.uci.edu`,
`today.uci.edu`: any URL whose host ends with none of these literal suffixes
is rejected; in particular `evil-ics.uci.edu.attacker.com` and a URL carrying
an allowed domain only in its path are rejected, while a genuine subdomain
such as `cs.ics.uci.edu` is accepted. -/
theorem c1_domain_suffix :
    (∀ url p, urlparse url = .ok p → domainOk p.netloc = false →
      is_valid url = .ok false)
    ∧ is_valid "https://evil-ics.uci.edu.attacker.com/" = .ok false
    ∧ is_valid "https://evil.com/ics.uci.edu" = .ok false
    ∧ is_valid "https://cs.ics.uci.edu/x" = .ok true := by
  refine ⟨?_, by decide, by decide, by decide⟩
  intro url p hp hdom
  rw [is_valid_of_parse_ok hp, is_valid_core_false_of_domain hdom]

/-- Witness for C1: `example.org` matches no allowlist suffix and its URL is
rejected. -/
theorem c1_domain_suffix_witness :
    domainOk "example.org" = false ∧ is_valid "https://example.org/" = .ok false :=
  ⟨by decide,
    c1_domain_suffix.1 "https://example.org/" ⟨"https", "example.org", "/", "", ""⟩
      (by decide) (by decide)⟩

/-- C2: the claim as stated is false: `extract_next_links` never consults the
status code, so a status-404 response whose body is present and carries an
anchor yields that link rather than the empty sequence. -/
theorem c2_counterexample :
    (extract_next_links (fun _ => 0) (fun _ h => h) "http://x/"
      ⟨404, some ⟨some ⟨"hello", ["http://x/a"]⟩⟩⟩ ∅).1 = ["http://x/a"] := by
  decide

/-- C2 (amended): `extract_next_links` returns the empty sequence whenever the
response carries no body bytes (no `raw_response`, or falsy `content`), with
no error raised; the status code is never consulted, so changing it alone
never changes the result, and in particular a status-404 response with a
non-empty body is processed like a status-200 one. -/
theorem c2_empty_on_missing_body :
    (∀ f j url resp store, resp.raw_response.bind RawResponse.content = none →
      extract_next_links f j url resp store = ([], store))
    ∧ (∀ f j url s s' rr store,
      extract_next_links f j url ⟨s, rr⟩ store
        = extract_next_links f j url ⟨s', rr⟩ store) := by
  constructor
  · intro f j url resp store h
    obtain ⟨s, rro⟩ := resp
    cases rro with
    | none => rfl
    | some rr =>
      obtain ⟨co⟩ := rr
      cases co with
      | none => rfl
      | some doc => simp [Option.bind] at h
  · intro f j url s s' rr store
    rfl

/-- Witness for C2: a response with no `raw_response` yields no links and
leaves the store unchanged. -/
theorem c2_empty_on_missing_body_witness :
    extract_next_links (fun _ => 0) (fun _ h => h) "http://x/" ⟨404, none⟩ ∅
      = ([], ∅) :=
  c2_empty_on_missing_body.1 _ _ _ _ _ rfl

/-- C3: the claim as stated is false: a host exactly equal to the allowed
domain `ics.uci.edu` matches no allowlist entry (the entry is the dotted
suffix `.ics.uci.edu`), so `is_valid("https://ics.uci.edu/page")` is False. -/
theorem c3_counterexample :
    domainOk "ics.uci.edu" = false
    ∧ is_valid "https://ics.uci.edu/page" = .ok false := by
  exact ⟨by decide, by decide⟩

/-- C3 (amended): the domain check accepts a host only if it ends with one of
the literal suffixes `.ics.uci.edu`, `.cs.uci.edu`, `.informatics.uci.edu`,
`.stat.uci.edu`, `today.uci.edu` — exact equality with the four dot-prefixed
domains is rejected.  Every http/https URL with no fragment, a non-blocked
extension, no trap query key, path/query within the size ceilings, whose host
matches a suffix (and satisfies the `today.uci.edu` path restriction when that
suffix applies) is accepted; concretely
`is_valid("https://www.ics.uci.edu/page")` is True while
`is_valid("https://ics.uci.edu/page")` is False. -/
theorem c3_subdomain_accept :
    ∀ url p, urlparse url = .ok p →
      p.fragment = "" →
      (p.scheme = "http" ∨ p.scheme = "https") →
      extBlocked (strToLower p.path) = false →
      domainOk p.netloc = true →
      (strEndsWith p.netloc "today.uci.edu" = true →
        strStartsWith p.path "/department/information_computer_sciences" = true) →
      trapHit (strToLower p.query) = false →
      p.path.toList.count '/' ≤ 4 →
      p.query.length ≤ 50 →
      is_valid url = .ok true := by
  intro url p hp hfrag hscheme hext hdom htoday htrap hdepth hquery
  rw [is_valid_of_parse_ok hp]
  have hs : (p.scheme == "http" || p.scheme == "https") = true := by
    rcases hscheme with h | h <;> simp [h]
  have hcore : is_valid_core p = true := by
    cases ht : strEndsWith p.netloc "today.uci.edu" with
    | false =>
      simp [is_valid_core, hfrag, hs, hext, hdom, ht, htrap]
      exact ⟨hdepth, hquery⟩
    | true =>
      simp [is_valid_core, hfrag, hs, hext, hdom, ht, htoday ht, htrap]
      exact ⟨hdepth, hquery⟩
  rw [hcore]

/-- Witness for C3: the proper subdomain `www.ics.uci.edu` is accepted. -/
theorem c3_subdomain_accept_witness :
    domainOk "www.ics.uci.edu" = true
    ∧ is_valid "https://www.ics.uci.edu/page" = .ok true :=
  ⟨by decide,
    c3_subdomain_accept "https://www.ics.uci.edu/page"
      ⟨"https", "www.ics.uci.edu", "/page", "", ""⟩
      (by decide) rfl (Or.inr rfl) (by decide) (by decide) (by decide) (by decide)
      (by decide) (by decide)⟩

/-- C4: the claim as stated is false: for input that cannot be parsed into
components, `is_valid` raises instead of returning False — `urlparse` raises
`ValueError("Invalid IPv6 URL")` on `"http://["` and nothing catches it. -/
theorem c4_counterexample :
    is_valid "http://[" = .error "Invalid IPv6 URL" := by
  decide

/-- C4 (amended): `is_valid` returns a boolean for every URL that `urlparse`
can parse, but for unparseable input (a `[` without `]`, or `]` without `[`,
in the authority) the `ValueError` from `urlparse` propagates out of
`is_valid` — the `except` clause catches only `TypeError` and re-raises even
that — so unparseable input raises rather than returning False. -/
theorem c4_error_propagation :
    (∀ url p, urlparse url = .ok p → is_valid url = .ok (is_valid_core p))
    ∧ (∀ url e, urlparse url = .error e → is_valid url = .error e) :=
  ⟨fun _ _ h => is_valid_of_parse_ok h, fun _ _ h => is_valid_of_parse_err h⟩

/-- Witness for C4: a parseable URL gets a boolean, `"http://[x"` raises. -/
theorem c4_error_propagation_witness :
    is_valid "http://a/" = .ok (is_valid_core ⟨"http", "a", "/", "", ""⟩)
    ∧ is_valid "http://[x" = .error "Invalid IPv6 URL" :=
  ⟨c4_error_propagation.1 _ _ (by decide), c4_error_propagation.2 _ _ (by decide)⟩

/-- C5: the near-duplicate contract of `extract_next_links` on a response with
body bytes present, writing `F` for the fingerprint of the page's visible
text: when some stored fingerprint is within Hamming distance 3 of `F`, the
call returns the empty link sequence and leaves the store unchanged; when no
stored fingerprint is within the threshold, `F` is added to the store and the
page's links are extracted. -/
theorem c5_near_duplicate_contract :
    ∀ (f : String → Nat) (j : String → String → String) (url : String)
      (s : Nat) (doc : HtmlDoc) (store : Finset Nat),
      ((∃ e ∈ store, hamming (f doc.text) e ≤ 3) →
        extract_next_links f j url ⟨s, some ⟨some doc⟩⟩ store = ([], store))
      ∧ ((¬∃ e ∈ store, hamming (f doc.text) e ≤ 3) →
        extract_next_links f j url ⟨s, some ⟨some doc⟩⟩ store
          = (doc.hrefs.map (j url), insert (f doc.text) store)) := by
  intro f j url s doc store
  constructor
  · intro h
    simp [extract_next_links, h]
  · intro h
    simp [extract_next_links, h]

/-- Witness for C5: with fingerprint function returning 5, a store holding 6
(Hamming distance 2) suppresses the page, and the empty store accepts it. -/
theorem c5_near_duplicate_contract_witness :
    (∃ e ∈ ({6} : Finset Nat), hamming 5 e ≤ 3)
    ∧ extract_next_links (fun _ => 5) (fun _ h => h) "http://x/"
        ⟨200, some ⟨some ⟨"t", ["a"]⟩⟩⟩ {6} = ([], {6})
    ∧ (¬∃ e ∈ (∅ : Finset Nat), hamming 5 e ≤ 3)
    ∧ extract_next_links (fun _ => 5) (fun _ h => h) "http://x/"
        ⟨200, some ⟨some ⟨"t", ["a"]⟩⟩⟩ ∅ = (["a"], insert 5 ∅) :=
  ⟨by decide,
    (c5_near_duplicate_contract (fun _ => 5) (fun _ h => h) "http://x/" 200
        ⟨"t", ["a"]⟩ {6}).1 (by decide),
    by decide,
    (c5_near_duplicate_contract (fun _ => 5) (fun _ h => h) "http://x/" 200
        ⟨"t", ["a"]⟩ ∅).2 (by decide)⟩

/-- C6: starting from the empty fingerprint store, processing a page twice
with identical text makes the first call novel (links extracted, fingerprint
stored) and the second call a duplicate (no links, store unchanged), and the
store holds exactly one fingerprint after both calls. -/
theorem c6_duplicate_idempotence :
    ∀ (f : String → Nat) (j : String → String → String) (url : String)
      (s : Nat) (doc : HtmlDoc),
      extract_next_links f j url ⟨s, some ⟨some doc⟩⟩ ∅
        = (doc.hrefs.map (j url), {f doc.text})
      ∧ extract_next_links f j url ⟨s, some ⟨some doc⟩⟩ {f doc.text}
        = ([], {f doc.text})
      ∧ ({f doc.text} : Finset Nat).card = 1 := by
  intro f j url s doc
  refine ⟨?_, ?_, Finset.card_singleton _⟩
  · simp [extract_next_links]
  · simp [extract_next_links, hamming, Nat.xor_self, popCount, popCountAux]

/-- The duplicate branch of `extract_next_links`. -/
theorem extract_dup {f : String → Nat} {j : String → String → String}
    {url : String} {s : Nat} {doc : HtmlDoc} {store : Finset Nat}
    (h : ∃ e ∈ store, hamming (f doc.text) e ≤ 3) :
    extract_next_links f j url ⟨s, some ⟨some doc⟩⟩ store = ([], store) := by
  simp [extract_next_links, h]

/-- The novel branch of `extract_next_links`. -/
theorem extract_novel {f : String → Nat} {j : String → String → String}
    {url : String} {s : Nat} {doc : HtmlDoc} {store : Finset Nat}
    (h : ¬∃ e ∈ store, hamming (f doc.text) e ≤ 3) :
    extract_next_links f j url ⟨s, some ⟨some doc⟩⟩ store
      = (doc.hrefs.map (j url), insert (f doc.text) store) := by
  simp [extract_next_links, h]

/-- The fingerprint store after one `extract_next_links` call contains the
store before it. -/
theorem extract_store_sub (f : String → Nat) (j : String → String → String)
    (url : String) (resp : Response) (store : Finset Nat) :
    store ⊆ (extract_next_links f j url resp store).2 := by
  obtain ⟨s, rro⟩ := resp
  cases rro with
  | none => exact Finset.Subset.refl _
  | some rr =>
    obtain ⟨co⟩ := rr
    cases co with
    | none => exact Finset.Subset.refl _
    | some doc =>
      by_cases h : ∃ e ∈ store, hamming (f doc.text) e ≤ 3
      · rw [extract_dup h]
      · rw [extract_novel h]
        exact Finset.subset_insert _ _

/-- C7: the fingerprint store grows monotonically: each `extract_next_links`
call yields a store containing the previous one and at most one new
fingerprint, and over any sequence of calls the initial store is contained in
the final one — no fingerprint is ever removed. -/
theorem c7_store_monotone :
    ∀ (f : String → Nat) (j : String → String → String) (url : String)
      (resp : Response) (store : Finset Nat),
      store ⊆ (extract_next_links f j url resp store).2
      ∧ (extract_next_links f j url resp store).2.card ≤ store.card + 1
      ∧ ∀ seq, store ⊆ runCrawl f j seq store := by
  intro f j url resp store
  refine ⟨extract_store_sub f j url resp store, ?_, ?_⟩
  · obtain ⟨s, rro⟩ := resp
    cases rro with
    | none => exact Nat.le_succ _
    | some rr =>
      obtain ⟨co⟩ := rr
      cases co with
      | none => exact Nat.le_succ _
      | some doc =>
        by_cases h : ∃ e ∈ store, hamming (f doc.text) e ≤ 3
        · rw [extract_dup h]
          exact Nat.le_succ _
        · rw [extract_novel h]
          exact Finset.card_insert_le _ _
  · intro seq
    induction seq generalizing store with
    | nil => exact Finset.Subset.refl _
    | cons pr rest ih =>
      exact Finset.Subset.trans (extract_store_sub f j pr.1 pr.2 store) (ih _)

/-- C8: `is_valid` is a pure, deterministic predicate: observed against the
crawler's only mutable state, two calls with the same URL string yield the
same value whatever the state, and a call leaves the state unchanged. -/
theorem c8_pure_predicate :
    ∀ (url : String) (s1 s2 : Finset Nat),
      (is_valid_call s1 url).1 = (is_valid_call s2 url).1
      ∧ (is_valid_call s1 url).2 = s1 := by
  intro url s1 s2
  exact ⟨rfl, rfl⟩

/-- When the list comprehension of `scraper` completes without an exception,
it returns exactly the links `is_valid` accepts, in order. -/
theorem filterValid_ok :
    ∀ {ls res : List String}, filterValid ls = .ok res →
      res = ls.filter (fun l => decide (is_valid l = Except.ok true))
      ∧ ∀ l ∈ res, is_valid l = .ok true := by
  intro ls
  induction ls with
  | nil =>
    intro res h
    rw [filterValid] at h
    cases h
    simp
  | cons l ls ih =>
    intro res h
    rw [filterValid] at h
    split at h
    · cases h
    next b hv =>
      split at h
      · cases h
      next rest hf =>
        obtain ⟨hrest, hmem⟩ := ih hf
        cases b with
        | false =>
          have hp : decide (is_valid l = Except.ok true) = false :=
            decide_eq_false (by simp [hv])
          cases h
          refine ⟨?_, hmem⟩
          simp [List.filter_cons, hp, hrest]
        | true =>
          have hp : decide (is_valid l = Except.ok true) = true :=
            decide_eq_true hv
          cases h
          refine ⟨?_, ?_⟩
          · simp [List.filter_cons, hp, hrest]
          · intro x hx
            cases hx with
            | head => exact hv
            | tail _ hx2 => exact hmem x hx2

/-- C9: whenever `scraper` returns, its link list is exactly the subsequence
of `extract_next_links`' output on which `is_valid` is True, in order and
with multiplicity, the store is the one `extract_next_links` produced, and no
link failing the scope filter is returned. -/
theorem c9_scope_filter :
    ∀ (f : String → Nat) (j : String → String → String) (url : String)
      (resp : Response) (store : Finset Nat) (res : List String) (st : Finset Nat),
      scraper f j url resp store = .ok (res, st) →
        res = (extract_next_links f j url resp store).1.filter
            (fun l => decide (is_valid l = Except.ok true))
        ∧ st = (extract_next_links f j url resp store).2
        ∧ ∀ l ∈ res, is_valid l = .ok true := by
  intro f j url resp store res st h
  rw [scraper] at h
  split at h
  · cases h
  next good hf =>
    cases h
    obtain ⟨hr, hm⟩ := filterValid_ok hf
    exact ⟨hr, rfl, hm⟩

/-- Witness for C9: a concrete run keeps exactly the in-scope link. -/
theorem c9_scope_filter_witness :
    scraper (fun _ => 0) (fun _ h => h) "http://x/"
      ⟨200, some ⟨some ⟨"t", ["https://www.ics.uci.edu/page", "https://evil.com/a"]⟩⟩⟩ ∅
      = .ok (["https://www.ics.uci.edu/page"], insert 0 ∅)
    ∧ ∀ l ∈ ["https://www.ics.uci.edu/page"], is_valid l = .ok true := by
  refine ⟨by decide, ?_⟩
  exact (c9_scope_filter (fun _ => 0) (fun _ h => h) "http://x/"
    ⟨200, some ⟨some ⟨"t", ["https://www.ics.uci.edu/page", "https://evil.com/a"]⟩⟩⟩ ∅
    ["https://www.ics.uci.edu/page"] (insert 0 ∅) (by decide)).2.2

/-- Running `defragAll` on a concatenation: the first parse failure wins, otherwise
the defragmented lists concatenate. -/
theorem defragAll_append (xs ys : List String) :
    defragAll (xs ++ ys)
      = match defragAll xs with
        | .error e => .error e
        | .ok a =>
          match defragAll ys with
          | .error e => .error e
          | .ok b => .ok (a ++ b) := by
  induction xs with
  | nil =>
    cases h : defragAll ys <;> simp [defragAll, h]
  | cons u xs ih =>
    simp only [List.cons_append, defragAll, List.append_eq]
    cases hu : urlparse u with
    | error e => rfl
    | ok p =>
      dsimp only
      rw [ih]
      cases hx : defragAll xs with
      | error e => rfl
      | ok a =>
        cases hy : defragAll ys with
        | error e => rfl
        | ok b => simp

/-- The map `defragAll` preserves length when it succeeds. -/
theorem defragAll_length :
    ∀ {us ds : List String}, defragAll us = .ok ds → ds.length = us.length := by
  intro us
  induction us with
  | nil =>
    intro ds h
    cases h
    rfl
  | cons u us ih =>
    intro ds h
    rw [defragAll] at h
    split at h
    · cases h
    next p hp =>
      split at h
      · cases h
      next rest hr =>
        cases h
        simp [ih hr]

/-- C10: `count_unique_pages` returns the cardinality of the set of
fragment-stripped URLs captured from log lines matching
`Downloaded (https?://[^\s,]+)`: the count is the size of the set of
defragmented captures; it never exceeds the number of matching lines; a line
with no match contributes nothing; repeating the whole log does not change
the count (so repeated identical URLs count once); and two captured URLs
whose parses differ only in the fragment defragment to the same string. -/
theorem c10_count_unique :
    (∀ ls ds, defragAll (ls.filterMap matchLine) = .ok ds →
      count_unique_pages ls = .ok ds.toFinset.card)
    ∧ (∀ ls n, count_unique_pages ls = .ok n →
      n ≤ (ls.filterMap matchLine).length)
    ∧ (∀ l ls, matchLine l = none →
      count_unique_pages (l :: ls) = count_unique_pages ls)
    ∧ (∀ ls, count_unique_pages (ls ++ ls) = count_unique_pages ls)
    ∧ (∀ u1 u2 p1 p2, urlparse u1 = .ok p1 → urlparse u2 = .ok p2 →
      p1.scheme = p2.scheme → p1.netloc = p2.netloc → p1.path = p2.path →
      p1.query = p2.query → defragment p1 = defragment p2) := by
  refine ⟨?_, ?_, ?_, ?_, ?_⟩
  · intro ls ds h
    rw [count_unique_pages, h]
  · intro ls n h
    rw [count_unique_pages] at h
    split at h
    · cases h
    next ds hd =>
      cases h
      calc ds.toFinset.card ≤ ds.length := List.toFinset_card_le ds
        _ = (ls.filterMap matchLine).length := defragAll_length hd
  · intro l ls h
    rw [count_unique_pages, count_unique_pages, List.filterMap_cons_none h]
  · intro ls
    rw [count_unique_pages, count_unique_pages, List.filterMap_append,
      defragAll_append]
    cases h : defragAll (ls.filterMap matchLine) with
    | error e => rfl
    | ok ds => simp
  · intro u1 u2 p1 p2 hp1 hp2 hs hn hpa hq
    cases p1
    cases p2
    simp only at hs hn hpa hq
    subst hs
    subst hn
    subst hpa
    subst hq
    rfl

/-- Witness for C10: a line without a `Downloaded` URL leaves the count
unchanged. -/
theorem c10_count_unique_witness :
    matchLine "nothing" = none
    ∧ count_unique_pages ["nothing", "Downloaded https://a.com/p#f, ok"]
        = count_unique_pages ["Downloaded https://a.com/p#f, ok"] :=
  ⟨by decide,
    c10_count_unique.2.2.1 "nothing" ["Downloaded https://a.com/p#f, ok"]
      (by decide)⟩

end Crawler
